import Mathlib

/-!
Shallow embedding of the decision-engine core of the `politika` repository
(`src/main.go`; `src/unnamed/part_000` is an earlier revision of the same
file with an identical core).  Go `float64` values (delta components, rule
weights, random draws) are modelled as rationals; all concrete values
occurring in the claims are exactly representable in `float64`, and none of
the claims depends on binary rounding of the arithmetic itself.  Go maps
(`map[string]int`, `map[string]Delta`) are modelled as association lists;
a Go map read of an absent key yields the zero value 0, and a map
assignment updates in place or inserts.  A Go runtime panic (out-of-range
slice index in `updatedValue`) is modelled as a Boolean flag carried next
to the state reached when the panic fires, since a panic unwinds only after
the in-place map mutations already performed.
-/

namespace Politika

/-- Type `World` from main.go:18-21: named integer resources and powers. -/
structure World where
  Resources : List (String × Int)
  Powers : List (String × Int)
deriving DecidableEq, Repr

/-- Type `Delta` from main.go:29: `type Delta []float64`. -/
abbrev Delta := List ℚ

/-- Type `Change` from main.go:31-34. -/
structure Change where
  Resources : List (String × Delta)
  Powers : List (String × Delta)
deriving DecidableEq, Repr

/-- Type `Choice` from main.go:41-44. -/
structure Choice where
  Description : String
  Change : Change
deriving DecidableEq, Repr

/-- Type `Decision` from main.go:36-39. -/
structure Decision where
  Description : String
  Choices : List Choice
deriving DecidableEq, Repr

/-- Type `Guard` from main.go:46-56.  The compiled expression node and the
external `expr.Run` evaluator are abstracted into the evaluation function
`Pass : World → bool | error` that `Guard.Pass` exposes to the core. -/
structure Guard where
  Pass : World → Except String Bool

/-- Type `Rule` from main.go:58-62. -/
structure Rule where
  Guard : Guard
  Weight : ℚ
  Decision : Decision

/-- Type `Scenario` from main.go:88-90. -/
structure Scenario where
  Rules : List Rule

/-- Type `CandidateDecision` from main.go:92-95. -/
structure CandidateDecision where
  Weight : ℚ
  Decision : Decision

/-- Go map read `m[k]` for a `map[string]int`: the zero value 0 when the
key is absent. -/
def lookupD (m : List (String × Int)) (k : String) : Int :=
  (m.lookup k).getD 0

/-- Go map assignment `m[k] = v`: replace when present, insert otherwise. -/
def insertAL : List (String × Int) → String → Int → List (String × Int)
  | [], k, v => [(k, v)]
  | (k0, v0) :: rest, k, v =>
    if k0 = k then (k, v) :: rest else (k0, v0) :: insertAL rest k v

/-- Go `math.Round`: round to the nearest integer, ties away from zero. -/
def goRound (q : ℚ) : Int :=
  if q < 0 then -(Int.floor (-q + 1/2)) else Int.floor (q + 1/2)

/-- Function `updatedValue` from main.go:156-158:
`int(math.Round(delta[0]*float64(old) + delta[1]))`.
Indexing `delta[0]` or `delta[1]` on a slice with fewer than two elements
panics at run time; the panic is modelled as `none`.  Components beyond the
second are ignored, exactly as in the source. -/
def updatedValue (old : Int) (d : Delta) : Option Int :=
  match d with
  | m :: a :: _ => some (goRound (m * (old : ℚ) + a))
  | _ => none

/-- One of the two range-loops of `Apply` (main.go:147-152): fold the named
deltas over the map, mutating in place entry by entry.  The Boolean is the
panic flag: `true` means `updatedValue` panicked on the entry reached, with
the first component holding the map state at that moment (all earlier
entries already mutated). -/
def applyEntries : List (String × Int) → List (String × Delta) → List (String × Int) × Bool
  | m, [] => (m, false)
  | m, (k, d) :: rest =>
    match updatedValue (lookupD m k) d with
    | some v => applyEntries (insertAL m k v) rest
    | none => (m, true)

/-- Method `Apply` from main.go:146-154.  The Go function's declared
`error` result is always `nil`; the only failure mode is the runtime panic
modelled by the Boolean flag (resources are processed before powers, and a
panic while processing resources leaves the powers untouched). -/
def World.Apply (w : World) (c : Choice) : World × Bool :=
  let res := applyEntries w.Resources c.Change.Resources
  if res.2 then (⟨res.1, w.Powers⟩, true)
  else
    let pow := applyEntries w.Powers c.Change.Powers
    (⟨res.1, pow.1⟩, pow.2)

/-- Method `Rule.Evaluate` from main.go:77-86. -/
def Rule.Evaluate (r : Rule) (w : World) : Except String ℚ :=
  match r.Guard.Pass w with
  | .error e => .error e
  | .ok false => .ok 0
  | .ok true => .ok r.Weight

/-- The candidate-building loop of `Decisions` (main.go:119-129): one
candidate per rule in declaration order; the first evaluation error aborts
the whole call with that error. -/
def evalCandidates : List Rule → World → Except String (List CandidateDecision)
  | [], _ => .ok []
  | r :: rest, w =>
    match r.Evaluate w with
    | .error e => .error e
    | .ok wt =>
      match evalCandidates rest w with
      | .error e => .error e
      | .ok cs => .ok (⟨wt, r.Decision⟩ :: cs)

/-- The order the `Less` method of `CandidateRanking` (main.go:107-109)
makes `sort.Sort` establish: ascending weight. -/
def candidateLE (a b : CandidateDecision) : Prop :=
  a.Weight ≤ b.Weight

instance : DecidableRel candidateLE :=
  fun a b => inferInstanceAs (Decidable (a.Weight ≤ b.Weight))

instance : IsTotal CandidateDecision candidateLE :=
  ⟨fun a b => le_total a.Weight b.Weight⟩

instance : IsTrans CandidateDecision candidateLE :=
  ⟨fun _ _ _ hab hbc => le_trans hab hbc⟩

/-- The call `sort.Sort(ranking)` from main.go:130-131.  Go's `sort.Sort`
is an unspecified but deterministic comparison sort; it is modelled by a
stable insertion sort, which produces one of the weight-ascending
permutations.  The claims rely only on the output being sorted by ascending
weight and on the sort being a deterministic function of its input, both of
which every run of the Go sort satisfies. -/
def sortCandidates (l : List CandidateDecision) : List CandidateDecision :=
  l.insertionSort candidateLE

/-- The sampling loop of `Decisions` (main.go:133-141).  The randomness
source is the stream `f` of successive `Float64()` draws; `i` is the index
of the next draw.  One draw is consumed per candidate visited, accepted or
not; when an acceptance pushes the accumulated length above
`maxNumDecisions`, the loop breaks and returns what was accumulated. -/
def sampleLoop (f : ℕ → ℚ) (k : Int) : List CandidateDecision → ℕ → List Decision → List Decision
  | [], _, acc => acc
  | c :: rest, i, acc =>
    if f i < c.Weight then
      if ((acc.length + 1 : ℕ) : Int) > k then acc ++ [c.Decision]
      else sampleLoop f k rest (i + 1) (acc ++ [c.Decision])
    else sampleLoop f k rest (i + 1) acc

/-- Method `Scenario.Decisions` from main.go:117-144, with the `Rand`
receiver and the `DecisionsF` closure arguments uncurried: the randomness
source is the draw stream `f`, `w` the world, `k` the `maxNumDecisions`
cap (a Go `int`, hence `Int`). -/
def Scenario.Decisions (s : Scenario) (f : ℕ → ℚ) (w : World) (k : Int) : Except String (List Decision) :=
  match evalCandidates s.Rules w with
  | .error e => .error e
  | .ok cands => .ok (sampleLoop f k (sortCandidates cands) 0 [])

/-- Predicate for a `Change` holding some delta with fewer than two
components — exactly the inputs on which `updatedValue` panics. -/
def Change.hasShortDelta (c : Change) : Bool :=
  (c.Resources.any fun p => decide (p.2.length < 2)) ||
    (c.Powers.any fun p => decide (p.2.length < 2))

/-- Concrete world for the C1 counterexample. -/
def c1World : World := ⟨[("A", 1), ("B", 1)], []⟩

/-- Concrete choice for the C1 counterexample: the delta for "A" is
well-formed, the delta for "B" has a single component. -/
def c1Choice : Choice := ⟨"bad", ⟨[("A", [2, 3]), ("B", [1])], []⟩⟩

/-- Concrete decision used by the C2 witness scenario. -/
def c2Decision : Decision := ⟨"c2", [⟨"ok", ⟨[], []⟩⟩]⟩

/-- Concrete scenario for the C2 witness: one always-true rule. -/
def c2Scenario : Scenario := ⟨[⟨⟨fun _ => .ok true⟩, 1, c2Decision⟩]⟩

/-- Concrete world for the C2 witness. -/
def c2World : World := ⟨[], []⟩

/-- A draw stream for the C2 witness. -/
def c2DrawsA : ℕ → ℚ := fun _ => 0

/-- A second, syntactically different draw stream replaying the same
sequence of draws as `c2DrawsA`. -/
def c2DrawsB : ℕ → ℚ := fun i => 0 * (i : ℚ)

/-- Concrete decision used by the C3 witness scenario. -/
def c3Decision : Decision := ⟨"c3", [⟨"ok", ⟨[], []⟩⟩]⟩

/-- Concrete scenario for the C3 witness: one always-true rule of weight 1. -/
def c3Scenario : Scenario := ⟨[⟨⟨fun _ => .ok true⟩, 1, c3Decision⟩]⟩

/-- Concrete world for the C3 witness. -/
def c3World : World := ⟨[], []⟩

/-- Concrete rule for the C4 witness: an always-true guard. -/
def c4Rule : Rule := ⟨⟨fun _ => .ok true⟩, 7, ⟨"c4", [⟨"ok", ⟨[], []⟩⟩]⟩⟩

/-- Concrete world for the C4 witness. -/
def c4World : World := ⟨[], []⟩

/-- Concrete rule for the C5 witness: its guard always fails to evaluate. -/
def c5Rule : Rule := ⟨⟨fun _ => .error "boom"⟩, 1, ⟨"c5", [⟨"ok", ⟨[], []⟩⟩]⟩⟩

/-- Concrete scenario for the C5 witness. -/
def c5Scenario : Scenario := ⟨[c5Rule]⟩

/-- Concrete world for the C5 witness. -/
def c5World : World := ⟨[], []⟩

/-- Concrete decision used by the C6 witness scenario. -/
def c6Decision : Decision := ⟨"c6", [⟨"ok", ⟨[], []⟩⟩]⟩

/-- Concrete scenario for the C6 witness: one always-true rule of weight 1. -/
def c6Scenario : Scenario := ⟨[⟨⟨fun _ => .ok true⟩, 1, c6Decision⟩]⟩

/-- Concrete world for the C6 witness. -/
def c6World : World := ⟨[], []⟩

/-- Concrete world for the C7 witness. -/
def c7World : World := ⟨[("Money", 4000)], [("Military", 90)]⟩

/-- Concrete choice for the C7 witness: touches only "Money". -/
def c7Choice : Choice := ⟨"c7", ⟨[("Money", [2, 0])], []⟩⟩

/-- Concrete world of the end-to-end acceptance scenario (C8):
Resources {Money: 4000}, Powers {Military: 90, Legislation: 10}. -/
def c8World : World := ⟨[("Money", 4000)], [("Military", 90), ("Legislation", 10)]⟩

/-- Choice A of the end-to-end acceptance scenario (C8):
{Money: mult .5 add 0, Legislation: mult 0 add 100}. -/
def c8ChoiceA : Choice := ⟨"Accept", ⟨[("Money", [1/2, 0])], [("Legislation", [0, 100])]⟩⟩

/-- The "Make putsch" decision of the end-to-end acceptance scenario (C8). -/
def c8Decision : Decision := ⟨"Make putsch", [c8ChoiceA]⟩

/-- The single rule of the end-to-end acceptance scenario (C8): guard
"Money > 1000 and Military ≥ 90" (the compiled form of the condition text
`World.Resources.Money > 1000 and World.Powers.Military >= 90`), weight 1. -/
def c8Rule : Rule :=
  ⟨⟨fun w => .ok (decide (1000 < lookupD w.Resources "Money" ∧ 90 ≤ lookupD w.Powers "Military"))⟩,
    1, c8Decision⟩

/-- The one-rule scenario of the end-to-end acceptance scenario (C8). -/
def c8Scenario : Scenario := ⟨[c8Rule]⟩

/-- Concrete world for C9. -/
def c9World : World := ⟨[("Money", 4000)], []⟩

/-- Concrete non-identity choice for C9: halve "Money". -/
def c9Choice : Choice := ⟨"half", ⟨[("Money", [1/2, 0])], []⟩⟩

/-- Decision offered by the guard-false rule of the C10 witness scenario. -/
def c10DecisionA : Decision := ⟨"never", [⟨"ok", ⟨[], []⟩⟩]⟩

/-- Decision offered by the guard-true rule of the C10 witness scenario. -/
def c10DecisionB : Decision := ⟨"always", [⟨"ok", ⟨[], []⟩⟩]⟩

/-- Concrete scenario for the C10 witness: one guard-false rule of weight 5
and one guard-true rule of weight 1. -/
def c10Scenario : Scenario :=
  ⟨[⟨⟨fun _ => .ok false⟩, 5, c10DecisionA⟩, ⟨⟨fun _ => .ok true⟩, 1, c10DecisionB⟩]⟩

/-- Concrete world for the C10 witness. -/
def c10World : World := ⟨[], []⟩

/-- Helper: a range-loop of `Apply` sets the panic flag exactly when some
delta in its change list has fewer than two components. -/
theorem applyEntries_panics_iff (m : List (String × Int)) (ch : List (String × Delta)) :
    (applyEntries m ch).2 = true ↔ (ch.any fun p => decide (p.2.length < 2)) = true := by
  induction ch generalizing m with
  | nil => simp [applyEntries]
  | cons p rest ih =>
    obtain ⟨k, d⟩ := p
    rcases d with _ | ⟨m0, _ | ⟨a, tl⟩⟩ <;>
      simp [applyEntries, updatedValue, ih]

/-- Helper: the panic flag of `Apply` is the disjunction of the panic flags
of its two range-loops. -/
theorem apply_snd_eq (w : World) (c : Choice) :
    (w.Apply c).2 =
      ((applyEntries w.Resources c.Change.Resources).2 ||
        (applyEntries w.Powers c.Change.Powers).2) := by
  unfold World.Apply
  cases h : (applyEntries w.Resources c.Change.Resources).2 <;> simp [h]

/-- C1, counterexample.  The claim says that on a Choice containing a delta
without exactly two numeric components, `Apply` fails with
MalformedDeltaError and leaves the World exactly as it was.  On the
concrete world {A:1, B:1} and a Choice whose delta for "A" is well-formed
and whose delta for "B" has one component, `Apply` panics only after
having already mutated "A": the resulting world differs from the original,
and no MalformedDeltaError exists anywhere in the code (`Apply`'s declared
error result is always nil). -/
theorem apply_malformed_cex :
    (c1Choice.Change.Resources.any fun p => decide (p.2.length ≠ 2)) = true ∧
    (c1World.Apply c1Choice).1 ≠ c1World := by
  constructor
  · decide
  · have h : (c1World.Apply c1Choice).1 = ⟨[("A", 5), ("B", 1)], []⟩ := by
      norm_num [c1World, c1Choice, World.Apply, applyEntries, updatedValue, goRound,
        insertAL, lookupD, List.lookup, beq_iff_eq]
    rw [h]
    decide

/-- C1, amended.  `Apply` performs no up-front validation and returns no
error value: it panics (out-of-range slice index) if and only if some delta
of the Choice has fewer than two components, mutating in place until the
offending entry is reached; a delta with more than two components is not
rejected at all (its extra components are ignored), so only short deltas
fail. -/
theorem apply_panics_iff_short (w : World) (c : Choice) :
    (w.Apply c).2 = true ↔ c.Change.hasShortDelta = true := by
  rw [apply_snd_eq]
  simp only [Change.hasShortDelta, Bool.or_eq_true, applyEntries_panics_iff]

/-- C2.  The decision engine is deterministic: for a fixed World, Scenario
and cap, two invocations whose randomness sources replay the same sequence
of draws produce identical outputs. -/
theorem decisions_deterministic (s : Scenario) (w : World) (k : Int) (f g : ℕ → ℚ)
    (h : ∀ i, f i = g i) : s.Decisions f w k = s.Decisions g w k := by
  have hfg : f = g := funext h
  rw [hfg]

/-- C2, witness: two syntactically different draw streams replaying the
all-zeros sequence give identical outputs on the witness scenario. -/
theorem decisions_deterministic_witness :
    c2Scenario.Decisions c2DrawsA c2World 3 = c2Scenario.Decisions c2DrawsB c2World 3 :=
  decisions_deterministic c2Scenario c2World 3 c2DrawsA c2DrawsB
    (fun i => by simp [c2DrawsA, c2DrawsB])

/-- Helper: the sampling loop grows its accumulator to length at most
`k + 1`, provided the accumulator starts within the cap. -/
theorem sampleLoop_length_le (f : ℕ → ℚ) (k : Int) :
    ∀ (cands : List CandidateDecision) (i : ℕ) (acc : List Decision),
      (acc.length : Int) ≤ k → ((sampleLoop f k cands i acc).length : Int) ≤ k + 1 := by
  intro cands
  induction cands with
  | nil =>
    intro i acc hacc
    simp only [sampleLoop]
    omega
  | cons c rest ih =>
    intro i acc hacc
    simp only [sampleLoop]
    by_cases hdraw : f i < c.Weight
    · by_cases hlen : ((acc.length + 1 : ℕ) : Int) > k
      · simp only [hdraw, if_true, hlen]
        simp only [List.length_append, List.length_cons, List.length_nil]
        push_cast
        omega
      · simp only [hdraw, if_true, hlen, if_false]
        apply ih
        simp only [List.length_append, List.length_cons, List.length_nil]
        push_cast at hlen ⊢
        omega
    · simp only [hdraw, if_false]
      exact ih _ _ hacc

/-- C3.  For a non-negative cap `k`, `Scenario.Decisions` returns at most
`k + 1` decisions: the loop may accept one decision beyond the cap before
it stops, and is not clamped to exactly `k`. -/
theorem decisions_length_le (s : Scenario) (f : ℕ → ℚ) (w : World) (k : Int)
    (l : List Decision) (hk : 0 ≤ k) (h : s.Decisions f w k = .ok l) :
    (l.length : Int) ≤ k + 1 := by
  unfold Scenario.Decisions at h
  cases heval : evalCandidates s.Rules w with
  | error e => rw [heval] at h; exact absurd h (by simp)
  | ok cands =>
    rw [heval] at h
    have hl : l = sampleLoop f k (sortCandidates cands) 0 [] := by
      simpa using h.symm
    rw [hl]
    exact sampleLoop_length_le f k (sortCandidates cands) 0 [] (by simpa using hk)

/-- C3, witness: with cap 0, a single always-accepted rule yields one
decision, within the `k + 1` bound. -/
theorem decisions_length_le_witness :
    ((([c3Decision] : List Decision).length : Int)) ≤ 0 + 1 := by
  refine decisions_length_le c3Scenario (fun _ => 0) c3World 0 [c3Decision] (by norm_num) ?_
  simp [c3Scenario, c3World, Scenario.Decisions, evalCandidates, Rule.Evaluate,
    sortCandidates, List.insertionSort, List.orderedInsert, sampleLoop, c3Decision]

/-- C4.  `Rule.Evaluate` propagates a guard evaluation error unmodified,
returns 0 when the guard is false regardless of the Weight, and returns
exactly the static Weight when the guard is true. -/
theorem rule_evaluate_spec (r : Rule) (w : World) :
    (∀ e, r.Guard.Pass w = .error e → r.Evaluate w = .error e) ∧
    (r.Guard.Pass w = .ok false → r.Evaluate w = .ok 0) ∧
    (r.Guard.Pass w = .ok true → r.Evaluate w = .ok r.Weight) := by
  refine ⟨fun e he => ?_, fun hf => ?_, fun ht => ?_⟩
  · simp [Rule.Evaluate, he]
  · simp [Rule.Evaluate, hf]
  · simp [Rule.Evaluate, ht]

/-- C4, witness: an always-true rule of weight 7 evaluates to exactly its
weight. -/
theorem rule_evaluate_spec_witness :
    c4Rule.Evaluate c4World = .ok c4Rule.Weight :=
  (rule_evaluate_spec c4Rule c4World).2.2 rfl

/-- Helper: if some rule's guard errors, the candidate-building loop
returns the error raised by one of the erroring rules. -/
theorem evalCandidates_error (w : World) :
    ∀ rules : List Rule, (∃ r ∈ rules, ∃ e, r.Guard.Pass w = .error e) →
      ∃ r ∈ rules, ∃ e, r.Guard.Pass w = .error e ∧ evalCandidates rules w = .error e := by
  intro rules
  induction rules with
  | nil => rintro ⟨r, hr, _⟩; exact absurd hr (by simp)
  | cons r rest ih =>
    rintro ⟨r0, hr0, e0, he0⟩
    cases hp : r.Guard.Pass w with
    | error e =>
      exact ⟨r, by simp, e, hp, by simp [evalCandidates, Rule.Evaluate, hp]⟩
    | ok b =>
      have hr0rest : r0 ∈ rest := by
        rcases List.mem_cons.mp hr0 with hq | hq
        · subst hq; rw [hp] at he0; exact absurd he0 (by simp)
        · exact hq
      obtain ⟨r1, hr1, e1, he1, heval⟩ := ih ⟨r0, hr0rest, e0, he0⟩
      refine ⟨r1, by simp [hr1], e1, he1, ?_⟩
      cases b <;> simp [evalCandidates, Rule.Evaluate, hp, heval]

/-- C5.  If any rule's guard raises an evaluation error, the whole
`Decisions` call aborts and propagates that rule's error; the result is an
error, never a partial list of decisions. -/
theorem decisions_error_propagates (s : Scenario) (f : ℕ → ℚ) (w : World) (k : Int)
    (h : ∃ r ∈ s.Rules, ∃ e, r.Guard.Pass w = .error e) :
    ∃ r ∈ s.Rules, ∃ e, r.Guard.Pass w = .error e ∧ s.Decisions f w k = .error e := by
  obtain ⟨r, hr, e, he, heval⟩ := evalCandidates_error w s.Rules h
  exact ⟨r, hr, e, he, by simp [Scenario.Decisions, heval]⟩

/-- C5, witness: a scenario whose single rule's guard errors with "boom"
makes `Decisions` propagate that error. -/
theorem decisions_error_propagates_witness :
    ∃ r ∈ c5Scenario.Rules, ∃ e,
      r.Guard.Pass c5World = .error e ∧
        c5Scenario.Decisions (fun _ => 0) c5World 3 = .error e :=
  decisions_error_propagates c5Scenario (fun _ => 0) c5World 3
    ⟨c5Rule, by simp [c5Scenario], "boom", rfl⟩

/-- Helper: the sampling loop appends to its accumulator the images of a
sublist of the candidate list it walks. -/
theorem sampleLoop_sublist (f : ℕ → ℚ) (k : Int) :
    ∀ (cands : List CandidateDecision) (i : ℕ) (acc : List Decision),
      ∃ cs : List CandidateDecision, cs.Sublist cands ∧
        sampleLoop f k cands i acc = acc ++ cs.map CandidateDecision.Decision := by
  intro cands
  induction cands with
  | nil =>
    intro i acc
    exact ⟨[], List.nil_sublist _, by simp [sampleLoop]⟩
  | cons c rest ih =>
    intro i acc
    by_cases hdraw : f i < c.Weight
    · by_cases hlen : ((acc.length : Int) + 1) > k
      · refine ⟨[c], List.Sublist.cons₂ c (List.nil_sublist rest), ?_⟩
        simp only [sampleLoop]
        rw [if_pos hdraw, if_pos (by push_cast; omega)]
        simp
      · obtain ⟨cs, hsub, heq⟩ := ih (i + 1) (acc ++ [c.Decision])
        refine ⟨c :: cs, List.Sublist.cons₂ c hsub, ?_⟩
        simp only [sampleLoop]
        rw [if_pos hdraw, if_neg (by push_cast; omega), heq]
        simp
    · obtain ⟨cs, hsub, heq⟩ := ih (i + 1) acc
      refine ⟨cs, List.Sublist.cons c hsub, ?_⟩
      simp only [sampleLoop]
      rw [if_neg hdraw, heq]

/-- Helper: the modelled candidate sort is sorted by ascending weight. -/
theorem sortCandidates_sorted (l : List CandidateDecision) :
    (sortCandidates l).Pairwise candidateLE :=
  List.sorted_insertionSort candidateLE l

/-- C6.  The decisions returned by `Scenario.Decisions` are the images, in
order, of a sublist of the weight-ascending sorted candidate list, so the
weights of the originating candidates are non-decreasing along every
returned list. -/
theorem decisions_weights_ascending (s : Scenario) (f : ℕ → ℚ) (w : World) (k : Int)
    (cands : List CandidateDecision) (l : List Decision)
    (hc : evalCandidates s.Rules w = .ok cands)
    (h : s.Decisions f w k = .ok l) :
    ∃ cs : List CandidateDecision, cs.Sublist (sortCandidates cands) ∧
      l = cs.map CandidateDecision.Decision ∧ cs.Pairwise candidateLE := by
  unfold Scenario.Decisions at h
  rw [hc] at h
  obtain ⟨cs, hsub, heq⟩ := sampleLoop_sublist f k (sortCandidates cands) 0 []
  refine ⟨cs, hsub, ?_, List.Pairwise.sublist hsub (sortCandidates_sorted cands)⟩
  have hl : l = sampleLoop f k (sortCandidates cands) 0 [] := by simpa using h.symm
  rw [hl, heq]
  simp

/-- C6, witness: on a one-rule scenario the returned list is the image of a
weight-sorted sublist of the sorted candidates. -/
theorem decisions_weights_ascending_witness :
    ∃ cs : List CandidateDecision,
      cs.Sublist (sortCandidates [⟨1, c6Decision⟩]) ∧
        [c6Decision] = cs.map CandidateDecision.Decision ∧ cs.Pairwise candidateLE :=
  decisions_weights_ascending c6Scenario (fun _ => 0) c6World 3 [⟨1, c6Decision⟩] [c6Decision]
    (show evalCandidates c6Scenario.Rules c6World = .ok [⟨1, c6Decision⟩] by
      simp [c6Scenario, evalCandidates, Rule.Evaluate])
    (show c6Scenario.Decisions (fun _ => 0) c6World 3 = .ok [c6Decision] by
      norm_num [c6Scenario, c6World, Scenario.Decisions, evalCandidates, Rule.Evaluate,
        sortCandidates, List.insertionSort, List.orderedInsert, sampleLoop])

/-- Helper: a deleted delta name is never mutated — an insert under a
different key preserves lookups. -/
theorem lookup_insertAL_ne (m : List (String × Int)) (k : String) (v : Int) (n : String)
    (h : k ≠ n) : (insertAL m k v).lookup n = m.lookup n := by
  have hnk : (n == k) = false := by
    simp only [beq_eq_false_iff_ne, ne_eq]
    exact fun hh => h hh.symm
  induction m with
  | nil => simp [insertAL, List.lookup, hnk]
  | cons p rest ih =>
    obtain ⟨k0, v0⟩ := p
    by_cases hk : k0 = k
    · subst hk
      simp [insertAL, List.lookup, hnk]
    · cases hnk0 : (n == k0) <;>
        simp [insertAL, List.lookup, hk, hnk0, ih]


/-- Helper: a range-loop of `Apply` leaves the value of every name absent
from its change list untouched, panic or not. -/
theorem applyEntries_lookup_absent (ch : List (String × Delta)) (m : List (String × Int))
    (n : String) (h : ch.lookup n = none) :
    ((applyEntries m ch).1).lookup n = m.lookup n := by
  induction ch generalizing m with
  | nil => simp [applyEntries]
  | cons p rest ih =>
    obtain ⟨k, d⟩ := p
    cases hnk : (n == k) with
    | true =>
      exfalso
      simp [List.lookup, hnk] at h
    | false =>
      have hrest : rest.lookup n = none := by simpa [List.lookup, hnk] using h
      have hk : k ≠ n := by
        intro hh
        subst hh
        simp at hnk
      cases hud : updatedValue (lookupD m k) d with
      | none => simp [applyEntries, hud]
      | some v =>
        calc ((applyEntries m ((k, d) :: rest)).1).lookup n
            = ((applyEntries (insertAL m k v) rest).1).lookup n := by
              simp [applyEntries, hud]
          _ = (insertAL m k v).lookup n := ih _ hrest
          _ = m.lookup n := lookup_insertAL_ne _ _ _ _ hk


/-- C7.  `Apply` only touches entries named in the Choice's Change: any
resource or power name absent from the Change keeps its value, and applying
a Choice with an empty Change returns the World unchanged (and no panic). -/
theorem apply_frame (w : World) (c : Choice) (n : String) :
    (c.Change.Resources.lookup n = none →
      lookupD (w.Apply c).1.Resources n = lookupD w.Resources n) ∧
    (c.Change.Powers.lookup n = none →
      lookupD (w.Apply c).1.Powers n = lookupD w.Powers n) ∧
    (c.Change.Resources = [] → c.Change.Powers = [] → w.Apply c = (w, false)) := by
  refine ⟨?_, ?_, ?_⟩
  · intro h
    rcases hres : applyEntries w.Resources c.Change.Resources with ⟨m1, b1⟩
    have hl := applyEntries_lookup_absent c.Change.Resources w.Resources n h
    rw [hres] at hl
    cases b1 <;> simp [World.Apply, hres, lookupD, hl]
  · intro h
    rcases hres : applyEntries w.Resources c.Change.Resources with ⟨m1, b1⟩
    cases b1
    · have hp := applyEntries_lookup_absent c.Change.Powers w.Powers n h
      simp [World.Apply, hres, lookupD, hp]
    · simp [World.Apply, hres]
  · intro h1 h2
    obtain ⟨wr, wp⟩ := w
    simp [World.Apply, h1, h2, applyEntries]

/-- C7, witness: a choice touching only "Money" leaves "Oil" and
"Military" unchanged, and an empty choice returns the world as is. -/
theorem apply_frame_witness :
    lookupD (c7World.Apply c7Choice).1.Resources "Oil" = lookupD c7World.Resources "Oil" ∧
    lookupD (c7World.Apply c7Choice).1.Powers "Military" = lookupD c7World.Powers "Military" ∧
    c7World.Apply ⟨"noop", ⟨[], []⟩⟩ = (c7World, false) := by
  exact ⟨(apply_frame c7World c7Choice "Oil").1 (by decide),
    (apply_frame c7World c7Choice "Military").2.1 (by decide),
    (apply_frame c7World ⟨"noop", ⟨[], []⟩⟩ "x").2.2 rfl rfl⟩

/-- Helper: the outcome of applying Choice A of the acceptance scenario to
its initial world, evaluated once and shared by the C8 theorems. -/
theorem c8_apply_eval :
    c8World.Apply c8ChoiceA =
      (⟨[("Money", 2000)], [("Military", 90), ("Legislation", 100)]⟩, false) := by
  norm_num [c8World, c8ChoiceA, World.Apply, applyEntries, updatedValue, goRound,
    insertAL, lookupD, List.lookup, beq_iff_eq]
  decide

/-- C8, counterexample.  The claim expects Legislation = 110 after applying
Choice A, but Choice A's delta for Legislation is (multiplier 0, additive
100), so by the claim's own update formula round(0*10 + 100) the stored
value becomes 100, not 110. -/
theorem end_to_end_cex :
    lookupD (c8World.Apply c8ChoiceA).1.Powers "Legislation" ≠ 110 := by
  rw [c8_apply_eval]
  decide

/-- C8, amended.  End-to-end acceptance scenario: from World {Money: 4000,
Military: 90, Legislation: 10}, the one-rule scenario with guard
"Money > 1000 and Military ≥ 90", weight 1 and the all-zeros randomness
source offers "Make putsch"; applying Choice A = {Money: mult .5 add 0,
Legislation: mult 0 add 100} yields Money = 2000, Legislation = 100 and
Military = 90 unchanged, each updated value being round(multiplier*old +
additive) with ties away from zero. -/
theorem end_to_end_scenario :
    c8Scenario.Decisions (fun _ => 0) c8World 1 = .ok [c8Decision] ∧
    (c8World.Apply c8ChoiceA).2 = false ∧
    lookupD (c8World.Apply c8ChoiceA).1.Resources "Money" = 2000 ∧
    lookupD (c8World.Apply c8ChoiceA).1.Powers "Legislation" = 100 ∧
    lookupD (c8World.Apply c8ChoiceA).1.Powers "Military" = 90 := by
  refine ⟨?_, ?_, ?_, ?_, ?_⟩
  · norm_num [c8Scenario, c8Rule, c8World, Scenario.Decisions, evalCandidates, Rule.Evaluate,
      sortCandidates, List.insertionSort, List.orderedInsert, sampleLoop, lookupD,
      List.lookup, beq_iff_eq]
  · rw [c8_apply_eval]
  · rw [c8_apply_eval]
    decide
  · rw [c8_apply_eval]
    decide
  · rw [c8_apply_eval]
    decide

/-- C9.  `Apply` is not idempotent for non-identity deltas: there is a
Choice whose single delta has multiplier ≠ 1 (here halving "Money") and a
World on which applying the Choice twice differs from applying it once. -/
theorem apply_not_idempotent :
    ∃ (w : World) (c : Choice) (m a : ℚ),
      c.Change.Resources = [("Money", [m, a])] ∧ (m ≠ 1 ∨ a ≠ 0) ∧
      ((w.Apply c).1.Apply c).1 ≠ (w.Apply c).1 := by
  refine ⟨c9World, c9Choice, 1/2, 0, rfl, Or.inl (by norm_num), ?_⟩
  have h1 : (c9World.Apply c9Choice).1 = ⟨[("Money", 2000)], []⟩ := by
    norm_num [c9World, c9Choice, World.Apply, applyEntries, updatedValue, goRound,
      insertAL, lookupD, List.lookup, beq_iff_eq]
  have h2 : ((⟨[("Money", 2000)], []⟩ : World).Apply c9Choice).1 = ⟨[("Money", 1000)], []⟩ := by
    norm_num [c9Choice, World.Apply, applyEntries, updatedValue, goRound,
      insertAL, lookupD, List.lookup, beq_iff_eq]
  rw [h1, h2]
  decide

/-- Helper: with non-negative draws, every decision accepted by the
sampling loop (beyond the initial accumulator) originates from a candidate
whose weight is strictly positive, since acceptance requires
draw < weight. -/
theorem sampleLoop_accept_pos (f : ℕ → ℚ) (k : Int) (hf : ∀ j, 0 ≤ f j) :
    ∀ (cands : List CandidateDecision) (i : ℕ) (acc : List Decision) (d : Decision),
      d ∈ sampleLoop f k cands i acc →
        d ∈ acc ∨ ∃ c ∈ cands, c.Decision = d ∧ 0 < c.Weight := by
  intro cands
  induction cands with
  | nil =>
    intro i acc d hd
    exact Or.inl (by simpa [sampleLoop] using hd)
  | cons c rest ih =>
    intro i acc d hd
    by_cases hdraw : f i < c.Weight
    · have hpos : 0 < c.Weight := lt_of_le_of_lt (hf i) hdraw
      by_cases hlen : ((acc.length + 1 : ℕ) : Int) > k
      · simp only [sampleLoop, hdraw, if_true, hlen] at hd
        rcases List.mem_append.mp hd with hmem | hmem
        · exact Or.inl hmem
        · have hdm : d = c.Decision := by simpa using hmem
          exact Or.inr ⟨c, by simp, hdm.symm, hpos⟩
      · simp only [sampleLoop, hdraw, if_true, hlen, if_false] at hd
        rcases ih (i + 1) (acc ++ [c.Decision]) d hd with hmem | ⟨c1, hc1, hd1, hp1⟩
        · rcases List.mem_append.mp hmem with h1 | h1
          · exact Or.inl h1
          · have hdm : d = c.Decision := by simpa using h1
            exact Or.inr ⟨c, by simp, hdm.symm, hpos⟩
        · exact Or.inr ⟨c1, by simp [hc1], hd1, hp1⟩
    · simp only [sampleLoop, hdraw, if_false] at hd
      rcases ih (i + 1) acc d hd with hmem | ⟨c1, hc1, hd1, hp1⟩
      · exact Or.inl hmem
      · exact Or.inr ⟨c1, by simp [hc1], hd1, hp1⟩

/-- C10.  A rule whose guard is false contributes a candidate of weight 0,
and with draws in [0,1) the strict comparison draw < weight can never
accept a zero-weight candidate: every returned decision originates from a
candidate of strictly positive weight. -/
theorem zero_weight_never_offered (s : Scenario) (f : ℕ → ℚ) (w : World) (k : Int)
    (cands : List CandidateDecision) (l : List Decision)
    (hf : ∀ j, 0 ≤ f j)
    (hc : evalCandidates s.Rules w = .ok cands)
    (h : s.Decisions f w k = .ok l) :
    (∀ r ∈ s.Rules, r.Guard.Pass w = .ok false → r.Evaluate w = .ok 0) ∧
      ∀ d ∈ l, ∃ c ∈ sortCandidates cands, c.Decision = d ∧ 0 < c.Weight := by
  constructor
  · intro r _ hfalse
    simp [Rule.Evaluate, hfalse]
  · intro d hd
    unfold Scenario.Decisions at h
    rw [hc] at h
    have hl : l = sampleLoop f k (sortCandidates cands) 0 [] := by simpa using h.symm
    rw [hl] at hd
    rcases sampleLoop_accept_pos f k hf (sortCandidates cands) 0 [] d hd with hmem | hgood
    · exact absurd hmem (by simp)
    · exact hgood

/-- C10, witness: with a guard-false rule of weight 5 and a guard-true rule
of weight 1 under the all-zeros draw stream, only the guard-true rule's
decision is returned and it comes from the positive-weight candidate. -/
theorem zero_weight_never_offered_witness :
    (∀ r ∈ c10Scenario.Rules, r.Guard.Pass c10World = .ok false →
      r.Evaluate c10World = .ok 0) ∧
    ∀ d ∈ [c10DecisionB], ∃ c ∈ sortCandidates [⟨0, c10DecisionA⟩, ⟨1, c10DecisionB⟩],
      c.Decision = d ∧ 0 < c.Weight :=
  zero_weight_never_offered c10Scenario (fun _ => 0) c10World 3
    [⟨0, c10DecisionA⟩, ⟨1, c10DecisionB⟩] [c10DecisionB]
    (fun _ => le_refl 0)
    (show evalCandidates c10Scenario.Rules c10World =
        .ok [⟨0, c10DecisionA⟩, ⟨1, c10DecisionB⟩] by
      simp [c10Scenario, evalCandidates, Rule.Evaluate])
    (show c10Scenario.Decisions (fun _ => 0) c10World 3 = .ok [c10DecisionB] by
      norm_num [c10Scenario, c10World, Scenario.Decisions, evalCandidates, Rule.Evaluate,
        sortCandidates, List.insertionSort, List.orderedInsert, sampleLoop, candidateLE])

end Politika
